import Mathlib

/-!
Verification of the regex pattern parser (`src/engine/parser.rs`).

The Rust source is embedded shallowly: the AST and error enums become
inductive types, the helper functions (`parse_escape`,
`parse_plus_start_question`, `fold_or`) become Lean functions, and the
main `parse` scan loop — which threads the mutable accumulators `seq`,
`seq_or` and the explicit group `stack` through a `for` loop — becomes
explicit state passing over a `ParserState` record, one `parseStep` per
scanned character.  Rust `Vec` push/pop act on the end of the vector, so
a `Vec` is a Lean `List` with push modelled as `xs ++ [a]` and pop as
`getLast?`/`dropLast`; push/pop on the group stack (also at the `Vec`
end) is modelled with the list head as the top of the stack.
-/

/-- AST node type, from `enum AST` in the source. -/
inductive AST : Type where
  | Char (c : Char)
  | Plus (child : AST)
  | Star (child : AST)
  | Question (child : AST)
  | Or (left : AST) (right : AST)
  | Seq (children : List AST)

/-- Parse error type, from `enum ParseError` in the source. -/
inductive ParseError : Type where
  | InvalidEscape (pos : Nat) (c : Char)
  | InvalidRightParen (pos : Nat)
  | NoPrev (pos : Nat)
  | NoRightParen
  | Empty
deriving DecidableEq, Repr

/-- Rendered message of each error, from `impl Display for ParseError`:
each `write!` format string is reproduced with its `{...}` holes spliced
by concatenation. -/
def ParseError.display : ParseError → String
  | ParseError.InvalidEscape pos c =>
      "ParseError: invalid escape: pos = " ++ toString pos
        ++ ", char = \x27" ++ String.singleton c ++ "\x27"
  | ParseError.InvalidRightParen pos =>
      "ParseError: invalid right parenthesis: pos = " ++ toString pos
  | ParseError.NoPrev pos =>
      "ParseError: no previous expression: pos = " ++ toString pos
  | ParseError.NoRightParen =>
      "ParseError: no right parenthesis"
  | ParseError.Empty =>
      "ParseError: no right parenthesis"

/-- From `fn parse_escape`: the seven escapable metacharacters yield a
literal `Char` node, anything else is an `InvalidEscape` error. -/
def parse_escape (pos : Nat) (c : Char) : Except ParseError AST :=
  if c = '\\' ∨ c = '(' ∨ c = ')' ∨ c = '|' ∨ c = '+' ∨ c = '*' ∨ c = '?' then
    Except.ok (AST.Char c)
  else
    Except.error (ParseError.InvalidEscape pos c)

/-- Quantifier kind, from `enum PSQ`. -/
inductive PSQ : Type where
  | Plus
  | Star
  | Question
deriving DecidableEq, Repr

/-- From `fn parse_plus_start_question` (source spelling kept): pop the
most recent node off the sequence accumulator, wrap it in the quantifier
node, push the result back; `NoPrev(pos)` if the accumulator is empty.
The Rust `&mut Vec<AST>` argument is modelled by returning the updated
list. -/
def parse_plus_start_question (seq : List AST) (ast_type : PSQ) (pos : Nat) :
    Except ParseError (List AST) :=
  match seq.getLast? with
  | some prev =>
      let ast := match ast_type with
        | PSQ.Plus => AST.Plus prev
        | PSQ.Star => AST.Star prev
        | PSQ.Question => AST.Question prev
      Except.ok (seq.dropLast ++ [ast])
  | none => Except.error (ParseError.NoPrev pos)

/-- From `fn fold_or`: with more than one branch, pop the last, reverse
the rest and fold `Or` over it left-to-right (which right-nests the
alternatives); with at most one branch, `pop` returns it (or `none`). -/
def fold_or (seq_or : List AST) : Option AST :=
  if seq_or.length > 1 then
    match seq_or.getLast? with
    | some last =>
        some (seq_or.dropLast.reverse.foldl (fun ast s => AST.Or s ast) last)
    | none => none
  else
    seq_or.getLast?

/-- Lexical mode, from `enum ParseState` inside `fn parse`. -/
inductive ParseState : Type where
  | Char
  | Escape
deriving DecidableEq, Repr

/-- The mutable locals of `fn parse`, threaded through the scan loop. -/
structure ParserState : Type where
  seq : List AST
  seq_or : List AST
  stack : List (List AST × List AST)
  state : ParseState

/-- Initial accumulators of `fn parse` (`Vec::new()` three times, state
`Char`). -/
def initState : ParserState := ⟨[], [], [], ParseState.Char⟩

/-- One iteration of the `for (i, c)` loop in `fn parse`. -/
def parseStep (i : Nat) (c : Char) (st : ParserState) :
    Except ParseError ParserState :=
  match st.state with
  | ParseState.Char =>
      if c = '+' then
        (parse_plus_start_question st.seq PSQ.Plus i).map
          (fun seq1 => { st with seq := seq1 })
      else if c = '*' then
        (parse_plus_start_question st.seq PSQ.Star i).map
          (fun seq1 => { st with seq := seq1 })
      else if c = '?' then
        (parse_plus_start_question st.seq PSQ.Question i).map
          (fun seq1 => { st with seq := seq1 })
      else if c = '(' then
        Except.ok ⟨[], [], (st.seq, st.seq_or) :: st.stack, ParseState.Char⟩
      else if c = ')' then
        match st.stack with
        | (prev, prev_or) :: rest =>
            let seq_or1 :=
              if st.seq.isEmpty then st.seq_or else st.seq_or ++ [AST.Seq st.seq]
            let prev1 :=
              match fold_or seq_or1 with
              | some ast => prev ++ [ast]
              | none => prev
            Except.ok ⟨prev1, prev_or, rest, ParseState.Char⟩
        | [] => Except.error (ParseError.InvalidRightParen i)
      else if c = '|' then
        if st.seq.isEmpty then
          Except.error (ParseError.NoPrev i)
        else
          Except.ok { st with seq := [], seq_or := st.seq_or ++ [AST.Seq st.seq] }
      else if c = '\\' then
        Except.ok { st with state := ParseState.Escape }
      else
        Except.ok { st with seq := st.seq ++ [AST.Char c] }
  | ParseState.Escape =>
      (parse_escape i c).map
        (fun ast => ⟨st.seq ++ [ast], st.seq_or, st.stack, ParseState.Char⟩)

/-- The scan loop of `fn parse`: runs `parseStep` on each character with
its index, aborting on the first error (the `?` operator). -/
def parseLoop (st : ParserState) (i : Nat) : List Char → Except ParseError ParserState
  | [] => Except.ok st
  | c :: cs =>
      match parseStep i c st with
      | Except.ok st1 => parseLoop st1 (i + 1) cs
      | Except.error e => Except.error e

/-- End-of-input finalization of `fn parse` (its last three blocks):
unterminated group first, then flush the pending `seq`, fold, and report
`Empty` if folding produced nothing. -/
def finalize (st : ParserState) : Except ParseError AST :=
  if st.stack.isEmpty then
    let seq_or1 :=
      if st.seq.isEmpty then st.seq_or else st.seq_or ++ [AST.Seq st.seq]
    match fold_or seq_or1 with
    | some ast => Except.ok ast
    | none => Except.error ParseError.Empty
  else
    Except.error ParseError.NoRightParen

/-- From `pub fn parse`: scan every character, then finalize.  The Rust
`Box<ParseError>` wrapper around errors carries no information and is
dropped. -/
def parse (expr : String) : Except ParseError AST :=
  match parseLoop initState 0 expr.data with
  | Except.ok st => finalize st
  | Except.error e => Except.error e

/-!
Specification-side definitions, for comparison against the code.
-/

/-- The right-leaning alternation tree the spec describes:
`rightNest b0 [b1, ..., bn] = Or(b0, Or(b1, ... Or(b_n-1, bn)))`, with the
last branch as the innermost right child. -/
def rightNest : AST → List AST → AST
  | b, [] => b
  | b, x :: xs => AST.Or b (rightNest x xs)

/-- The seven characters the scanner gives structural meaning to; every
other character is a literal. -/
def metachars : List Char := ['+', '*', '?', '(', ')', '|', '\\']

/-- The seven escapable characters accepted by `parse_escape`. -/
def escapable : List Char := ['\\', '(', ')', '|', '+', '*', '?']

mutual

/-- Every `Seq` node anywhere in the tree has at least one child. -/
def noEmptySeq : AST → Bool
  | AST.Char _ => true
  | AST.Plus a => noEmptySeq a
  | AST.Star a => noEmptySeq a
  | AST.Question a => noEmptySeq a
  | AST.Or l r => noEmptySeq l && noEmptySeq r
  | AST.Seq xs => !xs.isEmpty && noEmptySeqList xs

/-- Conjunction of `noEmptySeq` over every tree in a list. -/
def noEmptySeqList : List AST → Bool
  | [] => true
  | a :: as => noEmptySeq a && noEmptySeqList as

end

/-- All accumulators of a scan state hold only trees without empty
`Seq` nodes. -/
def StateWF (st : ParserState) : Prop :=
  (∀ a ∈ st.seq, noEmptySeq a = true)
  ∧ (∀ a ∈ st.seq_or, noEmptySeq a = true)
  ∧ (∀ fr ∈ st.stack,
      (∀ a ∈ fr.1, noEmptySeq a = true) ∧ (∀ a ∈ fr.2, noEmptySeq a = true))

example : parse "abc" = Except.ok (AST.Seq [AST.Char 'a', AST.Char 'b', AST.Char 'c']) := rfl

example : parse "a|b|c" =
    Except.ok (AST.Or (AST.Seq [AST.Char 'a'])
      (AST.Or (AST.Seq [AST.Char 'b']) (AST.Seq [AST.Char 'c']))) := rfl

example : parse "(ab)+" = Except.ok (AST.Seq [AST.Plus (AST.Seq [AST.Char 'a', AST.Char 'b'])]) := rfl

example : parse "()" = Except.error ParseError.Empty := rfl

example : parse "(a)()" = parse "(a)" := rfl

example : parse "+" = Except.error (ParseError.NoPrev 0) := rfl

example : parse "|x" = Except.error (ParseError.NoPrev 0) := rfl

example : parse ")" = Except.error (ParseError.InvalidRightParen 0) := rfl

example : parse "(" = Except.error ParseError.NoRightParen := rfl

example : parse "" = Except.error ParseError.Empty := rfl

example : parse "\\x" = Except.error (ParseError.InvalidEscape 1 'x') := rfl

example : parse "\\(" = Except.ok (AST.Seq [AST.Char '(']) := rfl

example : parse "a\\" = Except.ok (AST.Seq [AST.Char 'a']) := rfl

example : parse "\\" = Except.error ParseError.Empty := rfl

example : parse "a**" = Except.ok (AST.Seq [AST.Star (AST.Star (AST.Char 'a'))]) := rfl

/-!
Helper lemmas about `fold_or`.
-/

lemma rightNest_concat (l : List AST) :
    ∀ b last, rightNest b (l ++ [last]) =
      List.foldr (fun s ast => AST.Or s ast) last (b :: l) := by
  induction l with
  | nil => intro b last; rfl
  | cons x xs ih =>
      intro b last
      show AST.Or b (rightNest x (xs ++ [last])) = _
      rw [ih x last]
      rfl

lemma fold_or_nil : fold_or [] = none := rfl

lemma fold_or_singleton (b : AST) : fold_or [b] = some b := by
  simp [fold_or]

lemma fold_or_cons_cons (b0 b1 : AST) (bs : List AST) :
    fold_or (b0 :: b1 :: bs) = some (rightNest b0 (b1 :: bs)) := by
  rcases List.eq_nil_or_concat (b1 :: bs) with h | ⟨l, last, h⟩
  · exact absurd h (List.cons_ne_nil b1 bs)
  · rw [List.concat_eq_append] at h
    rw [h]
    have hl : b0 :: (l ++ [last]) = (b0 :: l) ++ [last] := rfl
    rw [hl]
    unfold fold_or
    rw [if_pos (by simp)]
    simp only [List.getLast?_concat, List.dropLast_concat, List.foldl_reverse]
    rw [rightNest_concat l b0 last]

lemma fold_or_isSome (l : List AST) (h : l ≠ []) : ∃ a, fold_or l = some a := by
  match l with
  | [] => exact absurd rfl h
  | [b] => exact ⟨b, fold_or_singleton b⟩
  | b0 :: b1 :: bs => exact ⟨rightNest b0 (b1 :: bs), fold_or_cons_cons b0 b1 bs⟩

/-!
Claim theorems.
-/

/-- Claim C1: the alternation folder right-nests two or more branches as
`Or(b0, Or(b1, ... Or(b_n-1, bn)))` with the last-parsed branch
innermost right; a single branch is returned unwrapped; an empty branch
list yields nothing; and `parse "a|b|c"` returns the right-nested tree. -/
theorem c1_fold_or_right_nesting :
    (∀ b0 b1 bs, fold_or (b0 :: b1 :: bs) = some (rightNest b0 (b1 :: bs)))
    ∧ (∀ b, fold_or [b] = some b)
    ∧ fold_or [] = none
    ∧ parse "a|b|c" =
        Except.ok (AST.Or (AST.Seq [AST.Char 'a'])
          (AST.Or (AST.Seq [AST.Char 'b']) (AST.Seq [AST.Char 'c']))) :=
  ⟨fold_or_cons_cons, fold_or_singleton, rfl, rfl⟩

/-- Claim C3: a quantifier pops the most recent node off the sequence
accumulator, wraps it in `Plus`/`Star`/`Question`, and pushes it back;
an empty accumulator yields `NoPrev(pos)`; and the inputs `"+"`, `"*"`,
`"?"` and `"|x"` all fail with `NoPrev(0)`. -/
theorem c3_quantifier_application :
    (∀ xs prev pos, parse_plus_start_question (xs ++ [prev]) PSQ.Plus pos =
        Except.ok (xs ++ [AST.Plus prev]))
    ∧ (∀ xs prev pos, parse_plus_start_question (xs ++ [prev]) PSQ.Star pos =
        Except.ok (xs ++ [AST.Star prev]))
    ∧ (∀ xs prev pos, parse_plus_start_question (xs ++ [prev]) PSQ.Question pos =
        Except.ok (xs ++ [AST.Question prev]))
    ∧ (∀ t pos, parse_plus_start_question [] t pos =
        Except.error (ParseError.NoPrev pos))
    ∧ parse "+" = Except.error (ParseError.NoPrev 0)
    ∧ parse "*" = Except.error (ParseError.NoPrev 0)
    ∧ parse "?" = Except.error (ParseError.NoPrev 0)
    ∧ parse "|x" = Except.error (ParseError.NoPrev 0) := by
  refine ⟨?_, ?_, ?_, fun _ _ => rfl, rfl, rfl, rfl, rfl⟩ <;>
    intro xs prev pos <;>
    simp [parse_plus_start_question, List.getLast?_concat, List.dropLast_concat]

/-- Claim C4: `parse_escape` returns the literal `Char(c)` exactly for
the seven escapable metacharacters and fails with `InvalidEscape(pos, c)`
for every other character; `parse "\x5cx"` fails with
`InvalidEscape(1, 'x')` and `parse "\x5c("` yields the literal
`Char('(')`. -/
theorem c4_escape_resolver :
    (∀ pos c, parse_escape pos c = Except.ok (AST.Char c) ↔ c ∈ escapable)
    ∧ (∀ pos c, c ∉ escapable →
        parse_escape pos c = Except.error (ParseError.InvalidEscape pos c))
    ∧ parse "\\x" = Except.error (ParseError.InvalidEscape 1 'x')
    ∧ parse "\\(" = Except.ok (AST.Seq [AST.Char '(']) := by
  refine ⟨?_, ?_, rfl, rfl⟩
  · intro pos c
    unfold parse_escape
    split
    · next h =>
        exact iff_of_true rfl (by simp only [escapable, List.mem_cons,
          List.not_mem_nil, or_false]; exact h)
    · next h =>
        refine iff_of_false (by simp) ?_
        simp only [escapable, List.mem_cons, List.not_mem_nil, or_false]
        exact h
  · intro pos c h
    have h2 : ¬(c = '\\' ∨ c = '(' ∨ c = ')' ∨ c = '|' ∨ c = '+' ∨ c = '*' ∨ c = '?') := by
      simpa only [escapable, List.mem_cons, List.not_mem_nil, or_false] using h
    simp [parse_escape, h2]

/-- Witness for C4: the hypothesis `c ∉ escapable` holds at `c = 'x'`,
and the resolver indeed rejects it. -/
theorem c4_escape_resolver_witness :
    parse_escape 1 'x' = Except.error (ParseError.InvalidEscape 1 'x') :=
  c4_escape_resolver.2.1 1 'x' (by decide)

/-- Claim C9: each `ParseError` variant renders with the documented
message shape, and the `Empty` variant renders the exact text
"ParseError: no right parenthesis" — identical to `NoRightParen`. -/
theorem c9_display_messages :
    (∀ pos c, ParseError.display (ParseError.InvalidEscape pos c) =
        "ParseError: invalid escape: pos = " ++ toString pos
          ++ ", char = \x27" ++ String.singleton c ++ "\x27")
    ∧ (∀ pos, ParseError.display (ParseError.InvalidRightParen pos) =
        "ParseError: invalid right parenthesis: pos = " ++ toString pos)
    ∧ (∀ pos, ParseError.display (ParseError.NoPrev pos) =
        "ParseError: no previous expression: pos = " ++ toString pos)
    ∧ ParseError.display ParseError.NoRightParen = "ParseError: no right parenthesis"
    ∧ ParseError.display ParseError.Empty = "ParseError: no right parenthesis"
    ∧ ParseError.display ParseError.Empty = ParseError.display ParseError.NoRightParen :=
  ⟨fun _ _ => rfl, fun _ => rfl, fun _ => rfl, rfl, rfl, rfl⟩

/-- Counterexample to C2 as stated: parsing `"()"` does not succeed — it
fails with the `Empty` error, because the empty group contributes no
atom and the resulting top-level pattern is empty. -/
theorem c2_counterexample : parse "()" = Except.error ParseError.Empty := rfl

/-- Claim C2 (amended): parsing `"()"` fails with `Empty`, raised by the
top-level emptiness check rather than by the group itself; closing an
empty group raises no error and contributes no atom to the enclosing
frame, so `"(a)()"` parses identically to `"(a)"`. -/
theorem c2_empty_group_no_op :
    parse "()" = Except.error ParseError.Empty
    ∧ parse "(a)()" = parse "(a)"
    ∧ (∀ i prev prev_or rest,
        parseStep i ')' ⟨[], [], (prev, prev_or) :: rest, ParseState.Char⟩ =
          Except.ok ⟨prev, prev_or, rest, ParseState.Char⟩) :=
  ⟨rfl, rfl, fun _ _ _ _ => rfl⟩

/-- Claim C7: closing a group whose content is non-empty appends exactly
one atom to the sequence of the enclosing frame; `parse "(ab)+"` yields the
group as a single quantified atom, and the empty group in `"(a)()"` is a
no-op, so it parses identically to `"(a)"`. -/
theorem c7_group_single_atom :
    (∀ i x xs seq_or prev prev_or rest, ∃ atom,
        parseStep i ')' ⟨x :: xs, seq_or, (prev, prev_or) :: rest, ParseState.Char⟩ =
          Except.ok ⟨prev ++ [atom], prev_or, rest, ParseState.Char⟩)
    ∧ parse "(ab)+" =
        Except.ok (AST.Seq [AST.Plus (AST.Seq [AST.Char 'a', AST.Char 'b'])])
    ∧ parse "(a)()" = parse "(a)" := by
  refine ⟨?_, rfl, rfl⟩
  intro i x xs seq_or prev prev_or rest
  obtain ⟨atom, h⟩ := fold_or_isSome (seq_or ++ [AST.Seq (x :: xs)]) (by simp)
  refine ⟨atom, ?_⟩
  simp [parseStep, h]

/-!
Helper lemmas about `parseLoop` and `parse`.
-/

lemma parse_mk (l : List Char) :
    parse (String.mk l) =
      match parseLoop initState 0 l with
      | Except.ok st => finalize st
      | Except.error e => Except.error e := rfl

lemma parseLoop_append (l1 l2 : List Char) :
    ∀ (st : ParserState) (i : Nat),
      parseLoop st i (l1 ++ l2) =
        match parseLoop st i l1 with
        | Except.ok st1 => parseLoop st1 (i + l1.length) l2
        | Except.error e => Except.error e := by
  induction l1 with
  | nil => intro st i; simp [parseLoop]
  | cons c cs ih =>
      intro st i
      show (match parseStep i c st with
            | Except.ok st1 => parseLoop st1 (i + 1) (cs ++ l2)
            | Except.error e => Except.error e) = _
      cases h : parseStep i c st with
      | error e => simp [parseLoop, h]
      | ok st1 =>
          have harith : i + 1 + cs.length = i + (c :: cs).length := by
            simp [List.length_cons]
            omega
          simp only [parseLoop, h, ih st1 (i + 1), harith]

lemma parseStep_backslash (i : Nat) (st : ParserState)
    (h : st.state = ParseState.Char) :
    parseStep i '\\' st = Except.ok { st with state := ParseState.Escape } := by
  obtain ⟨seq, seq_or, stack, state⟩ := st
  simp only at h
  subst h
  rfl

/-- Claim C5: a `)` with no open group aborts at once with
`InvalidRightParen` at its offset (so `")"` fails at 0); a per-character
error aborts the scan, skipping the rest of the input; at end of input
the unterminated-group check runs first, so every error-free scan that
leaves a group open fails with `NoRightParen` (e.g. `"("`); only with no
open group does an atomless input such as `""` fail with `Empty`. -/
theorem c5_error_priority :
    (∀ i seq seq_or, parseStep i ')' ⟨seq, seq_or, [], ParseState.Char⟩ =
        Except.error (ParseError.InvalidRightParen i))
    ∧ (∀ st i c cs e, parseStep i c st = Except.error e →
        parseLoop st i (c :: cs) = Except.error e)
    ∧ parse ")" = Except.error (ParseError.InvalidRightParen 0)
    ∧ (∀ expr st, parseLoop initState 0 expr = Except.ok st → st.stack ≠ [] →
        parse (String.mk expr) = Except.error ParseError.NoRightParen)
    ∧ parse "(" = Except.error ParseError.NoRightParen
    ∧ parse "" = Except.error ParseError.Empty := by
  refine ⟨fun _ _ _ => rfl, ?_, rfl, ?_, rfl, rfl⟩
  · intro st i c cs e h
    simp [parseLoop, h]
  · intro expr st h hst
    rw [parse_mk]
    simp only [h]
    obtain ⟨fr, rest, hstack⟩ := List.exists_cons_of_ne_nil hst
    simp [finalize, hstack]

/-- Witness for C5: the abort-propagation conjunct at the input `")"`
and the unterminated-group conjunct at the input `"("`. -/
theorem c5_error_priority_witness :
    parseLoop initState 0 [')'] = Except.error (ParseError.InvalidRightParen 0)
    ∧ parse (String.mk ['(']) = Except.error ParseError.NoRightParen :=
  ⟨c5_error_priority.2.1 initState 0 ')' [] (ParseError.InvalidRightParen 0) rfl,
   c5_error_priority.2.2.2.1 ['('] ⟨[], [], [([], [])], ParseState.Char⟩ rfl
     (List.cons_ne_nil _ _)⟩

/-- Claim C10: a bare trailing backslash leaves the scanner in `Escape`
mode but raises no error — appending it to any input whose error-free
scan ends in `Char` mode does not change the parse result; in
particular `parse "a\x5c"` succeeds with `Seq([Char('a')])` and
`parse "\x5c"` fails with `Empty`, not an escape error. -/
theorem c10_trailing_backslash :
    (∀ cs st, parseLoop initState 0 cs = Except.ok st →
        st.state = ParseState.Char →
        parse (String.mk (cs ++ ['\\'])) = parse (String.mk cs))
    ∧ parse "a\\" = Except.ok (AST.Seq [AST.Char 'a'])
    ∧ parse "\\" = Except.error ParseError.Empty := by
  refine ⟨?_, rfl, rfl⟩
  intro cs st h hstate
  rw [parse_mk, parse_mk]
  simp only [parseLoop_append, h]
  simp only [parseLoop, parseStep_backslash (0 + cs.length) st hstate]
  obtain ⟨seq, seq_or, stack, state⟩ := st
  rfl

/-- Witness for C10: the trailing-backslash conjunct applied to the
one-character input `"a"`, whose scan ends in `Char` mode. -/
theorem c10_trailing_backslash_witness :
    parse (String.mk (['a'] ++ ['\\'])) = parse (String.mk ['a']) :=
  c10_trailing_backslash.1 ['a'] ⟨[AST.Char 'a'], [], [], ParseState.Char⟩ rfl rfl

/-!
The scan of literal-only input.
-/

lemma parseStep_literal (i : Nat) (c : Char) (st : ParserState)
    (hst : st.state = ParseState.Char) (hc : c ∉ metachars) :
    parseStep i c st = Except.ok { st with seq := st.seq ++ [AST.Char c] } := by
  simp only [metachars, List.mem_cons, List.not_mem_nil, or_false, not_or] at hc
  obtain ⟨h1, h2, h3, h4, h5, h6, h7⟩ := hc
  obtain ⟨seq, seq_or, stack, state⟩ := st
  simp only at hst
  subst hst
  simp [parseStep, h1, h2, h3, h4, h5, h6, h7]

lemma parseLoop_literal (cs : List Char) :
    ∀ (st : ParserState) (i : Nat), st.state = ParseState.Char →
      (∀ c ∈ cs, c ∉ metachars) →
      parseLoop st i cs =
        Except.ok ⟨st.seq ++ cs.map AST.Char, st.seq_or, st.stack, ParseState.Char⟩ := by
  induction cs with
  | nil =>
      intro st i hst _
      obtain ⟨seq, seq_or, stack, state⟩ := st
      simp only at hst
      subst hst
      simp [parseLoop]
  | cons c cs ih =>
      intro st i hst hall
      have hc : c ∉ metachars := hall c (by simp)
      have hrec := ih { st with seq := st.seq ++ [AST.Char c] } (i + 1) hst
        (fun d hd => hall d (by simp [hd]))
      simp [parseLoop, parseStep_literal i c st hst hc, hrec]

/-- Counterexample to C6 as stated: the empty input consists solely of
literal characters (vacuously — it contains no metacharacter), yet
parsing it does not succeed: it fails with `Empty`. -/
theorem c6_counterexample :
    "".data.all (fun c => !metachars.contains c) = true
    ∧ parse "" = Except.error ParseError.Empty :=
  ⟨rfl, rfl⟩

/-- Claim C6 (amended): for all NON-EMPTY inputs consisting solely of
literal characters — none of `+ * ? ( ) | \x5c` — parsing succeeds and
returns a `Seq` with exactly one `Char` node per input character, in
input order; the empty input instead fails with `Empty`. -/
theorem c6_literal_inputs :
    (∀ cs : List Char, cs ≠ [] → (∀ c ∈ cs, c ∉ metachars) →
        parse (String.mk cs) = Except.ok (AST.Seq (cs.map AST.Char)))
    ∧ parse "abc" = Except.ok (AST.Seq [AST.Char 'a', AST.Char 'b', AST.Char 'c'])
    ∧ parse "" = Except.error ParseError.Empty := by
  refine ⟨?_, rfl, rfl⟩
  intro cs hne hall
  rw [parse_mk]
  simp only [parseLoop_literal cs initState 0 rfl hall]
  obtain ⟨c, cs', rfl⟩ := List.exists_cons_of_ne_nil hne
  simp [finalize, initState, fold_or_singleton]

/-- Witness for C6: the amended theorem applied to the concrete literal
input `"abc"`. -/
theorem c6_literal_inputs_witness :
    parse (String.mk ['a', 'b', 'c']) =
      Except.ok (AST.Seq (['a', 'b', 'c'].map AST.Char)) :=
  c6_literal_inputs.1 ['a', 'b', 'c'] (by decide) (by decide)

/-!
The no-empty-`Seq` invariant of finished trees.
-/

lemma noEmptySeqList_iff (xs : List AST) :
    noEmptySeqList xs = true ↔ ∀ a ∈ xs, noEmptySeq a = true := by
  induction xs with
  | nil => simp [noEmptySeqList]
  | cons a as ih => simp [noEmptySeqList, ih]

lemma noEmptySeq_seq (xs : List AST) :
    noEmptySeq (AST.Seq xs) = true ↔ xs ≠ [] ∧ ∀ a ∈ xs, noEmptySeq a = true := by
  simp [noEmptySeq, noEmptySeqList_iff, List.isEmpty_iff]

lemma rightNest_good (l : List AST) :
    ∀ b : AST, noEmptySeq b = true → (∀ x ∈ l, noEmptySeq x = true) →
      noEmptySeq (rightNest b l) = true := by
  induction l with
  | nil => intro b hb _; exact hb
  | cons x xs ih =>
      intro b hb hall
      show noEmptySeq (AST.Or b (rightNest x xs)) = true
      simp only [noEmptySeq, Bool.and_eq_true]
      exact ⟨hb, ih x (hall x (by simp))
        (fun y hy => hall y (List.mem_cons_of_mem x hy))⟩

lemma fold_or_good (l : List AST) (hall : ∀ x ∈ l, noEmptySeq x = true)
    (a : AST) (h : fold_or l = some a) : noEmptySeq a = true := by
  match l with
  | [] => simp [fold_or] at h
  | [b] =>
      rw [fold_or_singleton] at h
      injection h with h
      subst h
      exact hall b (by simp)
  | b0 :: b1 :: bs =>
      rw [fold_or_cons_cons] at h
      injection h with h
      subst h
      exact rightNest_good (b1 :: bs) b0 (hall b0 (by simp))
        (fun x hx => hall x (List.mem_cons_of_mem b0 hx))

lemma pppq_good (seq : List AST) (t : PSQ) (pos : Nat) (seq1 : List AST)
    (hall : ∀ a ∈ seq, noEmptySeq a = true)
    (h : parse_plus_start_question seq t pos = Except.ok seq1) :
    ∀ a ∈ seq1, noEmptySeq a = true := by
  rcases List.eq_nil_or_concat seq with rfl | ⟨xs, x, rfl⟩
  · simp [parse_plus_start_question] at h
  · rw [List.concat_eq_append] at hall h
    simp only [parse_plus_start_question, List.getLast?_concat,
      List.dropLast_concat] at h
    injection h with h
    subst h
    have hx : noEmptySeq x = true := hall x (by simp)
    intro a ha
    rcases List.mem_append.mp ha with ha | ha
    · exact hall a (List.mem_append.mpr (Or.inl ha))
    · simp only [List.mem_singleton] at ha
      subst ha
      cases t <;> simpa [noEmptySeq] using hx

lemma pppq_map_wf (seq seq_or : List AST)
    (stack : List (List AST × List AST)) (t : PSQ) (i : Nat)
    (st1 : ParserState)
    (hseq : ∀ a ∈ seq, noEmptySeq a = true)
    (hseq_or : ∀ a ∈ seq_or, noEmptySeq a = true)
    (hstack : ∀ fr ∈ stack,
      (∀ a ∈ fr.1, noEmptySeq a = true) ∧ (∀ a ∈ fr.2, noEmptySeq a = true))
    (h : (parse_plus_start_question seq t i).map
        (fun seq1 => (⟨seq1, seq_or, stack, ParseState.Char⟩ : ParserState)) =
        Except.ok st1) :
    StateWF st1 := by
  cases hp : parse_plus_start_question seq t i with
  | error e => rw [hp] at h; simp [Except.map] at h
  | ok seq1 =>
      rw [hp] at h
      simp only [Except.map] at h
      injection h with h
      subst h
      exact ⟨pppq_good seq t i seq1 hseq hp, hseq_or, hstack⟩

lemma parseStep_wf (i : Nat) (c : Char) (st st1 : ParserState)
    (hwf : StateWF st) (h : parseStep i c st = Except.ok st1) : StateWF st1 := by
  obtain ⟨seq, seq_or, stack, state⟩ := st
  obtain ⟨hseq, hseq_or, hstack⟩ := hwf
  simp only at hseq hseq_or hstack
  cases state with
  | Escape =>
      simp only [parseStep] at h
      cases hesc : parse_escape i c with
      | error e => rw [hesc] at h; simp [Except.map] at h
      | ok a =>
          rw [hesc] at h
          simp only [Except.map] at h
          injection h with h
          subst h
          have ha : noEmptySeq a = true := by
            simp only [parse_escape] at hesc
            split at hesc
            · injection hesc with hesc
              subst hesc
              rfl
            · exact absurd hesc (by simp)
          refine ⟨?_, hseq_or, hstack⟩
          intro x hx
          rcases List.mem_append.mp hx with hx | hx
          · exact hseq x hx
          · simp only [List.mem_singleton] at hx
            subst hx
            exact ha
  | Char =>
      simp only [parseStep] at h
      by_cases h1 : c = '+'
      · rw [if_pos h1] at h
        exact pppq_map_wf seq seq_or stack PSQ.Plus i st1 hseq hseq_or hstack h
      rw [if_neg h1] at h
      by_cases h2 : c = '*'
      · rw [if_pos h2] at h
        exact pppq_map_wf seq seq_or stack PSQ.Star i st1 hseq hseq_or hstack h
      rw [if_neg h2] at h
      by_cases h3 : c = '?'
      · rw [if_pos h3] at h
        exact pppq_map_wf seq seq_or stack PSQ.Question i st1 hseq hseq_or hstack h
      rw [if_neg h3] at h
      by_cases h4 : c = '('
      · rw [if_pos h4] at h
        injection h with h
        subst h
        refine ⟨by simp, by simp, ?_⟩
        intro fr hfr
        rcases List.mem_cons.mp hfr with rfl | hfr
        · exact ⟨hseq, hseq_or⟩
        · exact hstack fr hfr
      rw [if_neg h4] at h
      by_cases h5 : c = ')'
      · rw [if_pos h5] at h
        cases stack with
        | nil => simp at h
        | cons fr rest =>
            obtain ⟨prev, prev_or⟩ := fr
            have hfr := hstack (prev, prev_or) (by simp)
            have hrest : ∀ fr ∈ rest,
                (∀ a ∈ fr.1, noEmptySeq a = true) ∧
                  (∀ a ∈ fr.2, noEmptySeq a = true) :=
              fun fr hfr2 => hstack fr (List.mem_cons_of_mem _ hfr2)
            simp only at h
            have hgood1 : ∀ a ∈ (if seq.isEmpty then seq_or
                else seq_or ++ [AST.Seq seq]), noEmptySeq a = true := by
              split
              · exact hseq_or
              · next hne =>
                  intro a ha
                  rcases List.mem_append.mp ha with ha | ha
                  · exact hseq_or a ha
                  · simp only [List.mem_singleton] at ha
                    subst ha
                    rw [noEmptySeq_seq]
                    refine ⟨?_, hseq⟩
                    simpa [List.isEmpty_iff] using hne
            cases hf : fold_or (if seq.isEmpty then seq_or
                else seq_or ++ [AST.Seq seq]) with
            | none =>
                rw [hf] at h
                simp only at h
                injection h with h
                subst h
                exact ⟨hfr.1, hfr.2, hrest⟩
            | some ast =>
                rw [hf] at h
                simp only at h
                injection h with h
                subst h
                refine ⟨?_, hfr.2, hrest⟩
                intro a ha
                rcases List.mem_append.mp ha with ha | ha
                · exact hfr.1 a ha
                · simp only [List.mem_singleton] at ha
                  subst ha
                  exact fold_or_good _ hgood1 _ hf
      rw [if_neg h5] at h
      by_cases h6 : c = '|'
      · rw [if_pos h6] at h
        by_cases hE : seq.isEmpty = true
        · rw [if_pos hE] at h
          exact absurd h (by simp)
        · rw [if_neg hE] at h
          injection h with h
          subst h
          refine ⟨by simp, ?_, hstack⟩
          intro a ha
          rcases List.mem_append.mp ha with ha | ha
          · exact hseq_or a ha
          · simp only [List.mem_singleton] at ha
            subst ha
            rw [noEmptySeq_seq]
            refine ⟨?_, hseq⟩
            simpa [List.isEmpty_iff] using hE
      rw [if_neg h6] at h
      by_cases h7 : c = '\\'
      · rw [if_pos h7] at h
        injection h with h
        subst h
        exact ⟨hseq, hseq_or, hstack⟩
      rw [if_neg h7] at h
      injection h with h
      subst h
      refine ⟨?_, hseq_or, hstack⟩
      intro a ha
      rcases List.mem_append.mp ha with ha | ha
      · exact hseq a ha
      · simp only [List.mem_singleton] at ha
        subst ha
        rfl

lemma parseLoop_wf (cs : List Char) :
    ∀ (st : ParserState) (i : Nat) (st1 : ParserState), StateWF st →
      parseLoop st i cs = Except.ok st1 → StateWF st1 := by
  induction cs with
  | nil =>
      intro st i st1 hwf h
      simp only [parseLoop] at h
      injection h with h
      subst h
      exact hwf
  | cons c cs ih =>
      intro st i st1 hwf h
      simp only [parseLoop] at h
      cases hstep : parseStep i c st with
      | error e => rw [hstep] at h; simp at h
      | ok st2 =>
          rw [hstep] at h
          simp only at h
          exact ih st2 (i + 1) st1 (parseStep_wf i c st st2 hwf hstep) h

lemma finalize_wf (st : ParserState) (ast : AST) (hwf : StateWF st)
    (h : finalize st = Except.ok ast) : noEmptySeq ast = true := by
  obtain ⟨seq, seq_or, stack, state⟩ := st
  obtain ⟨hseq, hseq_or, _⟩ := hwf
  simp only at hseq hseq_or
  simp only [finalize] at h
  by_cases hs : stack.isEmpty = true
  · rw [if_pos hs] at h
    have hgood1 : ∀ a ∈ (if seq.isEmpty then seq_or
        else seq_or ++ [AST.Seq seq]), noEmptySeq a = true := by
      split
      · exact hseq_or
      · next hne =>
          intro a ha
          rcases List.mem_append.mp ha with ha | ha
          · exact hseq_or a ha
          · simp only [List.mem_singleton] at ha
            subst ha
            rw [noEmptySeq_seq]
            refine ⟨?_, hseq⟩
            simpa [List.isEmpty_iff] using hne
    cases hf : fold_or (if seq.isEmpty then seq_or
        else seq_or ++ [AST.Seq seq]) with
    | none => rw [hf] at h; simp at h
    | some a =>
        rw [hf] at h
        simp only at h
        injection h with h
        subst h
        exact fold_or_good _ hgood1 a hf
  · rw [if_neg hs] at h
    exact absurd h (by simp)

/-- Claim C8: on every successful parse, every `Seq` node anywhere in
the returned AST has at least one child. -/
theorem c8_no_empty_seq_in_result (expr : String) (ast : AST)
    (h : parse expr = Except.ok ast) : noEmptySeq ast = true := by
  have hinit : StateWF initState :=
    ⟨by simp [initState], by simp [initState], by simp [initState]⟩
  unfold parse at h
  cases hl : parseLoop initState 0 expr.data with
  | error e => rw [hl] at h; simp at h
  | ok st =>
      rw [hl] at h
      simp only at h
      exact finalize_wf st ast (parseLoop_wf expr.data initState 0 st hinit hl) h

/-- Witness for C8: the invariant at the concrete parse of `"a"`. -/
theorem c8_no_empty_seq_in_result_witness :
    noEmptySeq (AST.Seq [AST.Char 'a']) = true :=
  c8_no_empty_seq_in_result "a" (AST.Seq [AST.Char 'a']) rfl
